import Mathlib

/-!
Verification of the `setman` settings-override layer.

Shallow embedding of the repository `django-setman`:

* `setman/lazy.py`   — `LazySettings` proxy (layered read, write, delete, caches);
* `setman/models.py` — `Settings` model (attribute interception, `revert`,
  `validate_unique`, the `pre_save`/`post_save` hooks);
* `setman/fields.py` — `SettingsField.clean` / `_settings_to_python` coercion.

The settings schema (`setman/utils.py`: `AVAILABLE_SETTINGS`,
`is_settings_container`) and the manager (`setman/managers.py`) are not part of
the provided sources; they are modelled from the spec (§3, §4.3, §6) as an
immutable two-level schema and a plain single-row store.

Python values are embedded as `PyValue` (JSON-like data), Python dicts as
association lists, and the mutable world (Django settings, the database table,
the process-wide resolution cache) as an explicit state record `GState`.
Fallible operations return `Except PyErr`.
-/

/-- A Python/JSON value as it occurs in the `data` mapping: `None`, booleans,
integers, strings and (nested) dicts with string keys. -/
inductive PyValue : Type where
  | none : PyValue
  | bool : Bool → PyValue
  | int : Int → PyValue
  | str : String → PyValue
  | dict : List (String × PyValue) → PyValue

/-- Is the value a Python dict?  (`isinstance(value, dict)`). -/
def PyValue.isDict : PyValue → Bool
  | .dict _ => true
  | _ => false

/-- A Python dict with string keys, as an association list (Python dicts hold
each key once; all operations below use the first occurrence). -/
abbrev Data := List (String × PyValue)

/-- Model of `m.get(k)` / `m[k]` on a Python dict. -/
def lookupA (m : Data) (k : String) : Option PyValue :=
  match m with
  | [] => Option.none
  | (k', v) :: rest => if k' = k then some v else lookupA rest k

/-- Model of `k in m` on a Python dict. -/
def containsA (m : Data) (k : String) : Bool :=
  (lookupA m k).isSome

/-- Model of `m[k] = v` on a Python dict: replace the existing binding, else append. -/
def insertA (m : Data) (k : String) (v : PyValue) : Data :=
  match m with
  | [] => [(k, v)]
  | (k', v') :: rest => if k' = k then (k, v) :: rest else (k', v') :: insertA rest k v

/-- Model of `del m[k]` on a Python dict (no-op when the key is absent, matching the
guarded `if name in self.data: del self.data[name]` call sites). -/
def eraseA (m : Data) (k : String) : Data :=
  match m with
  | [] => []
  | (k', v') :: rest => if k' = k then rest else (k', v') :: eraseA rest k

/-- Model of `name.startswith('_')`, written on the character list so that concrete
instances reduce inside the kernel. -/
def startsWithUnderscore (name : String) : Bool :=
  match name.data with
  | '_' :: _ => true
  | _ => false

/-- Decimal digits to a number (`Option.none` on a non-digit or an empty
list); the reference implementation behind the integer coercion below. -/
def decDigits : List Char → Option Nat
  | [] => Option.none
  | cs => go cs 0
where
  go : List Char → Nat → Option Nat
  | [], acc => some acc
  | c :: rest, acc =>
    if '0' ≤ c ∧ c ≤ '9' then go rest (acc * 10 + (c.toNat - '0'.toNat))
    else Option.none

/-- Parse an optionally-signed decimal integer from a string. -/
def parseInt (s : String) : Option Int :=
  match s.data with
  | '-' :: rest => (decDigits rest).map (fun n => -(n : Int))
  | cs => (decDigits cs).map (fun n => (n : Int))

/-- Modelled from the spec (§3): the per-definition "validator/coercion
function" of a Setting Definition.  `setman/utils.py` (missing from the
sources) supplies these as Django form-field cleaners / `to_python` methods;
they are embedded as first-order data so that everything stays executable:
`ident` accepts any value unchanged, `const c` normalises every input to `c`,
`strToInt` behaves like an integer field (accepts ints, parses decimal
strings, rejects everything else). -/
inductive Coercion : Type where
  | ident : Coercion
  | const : PyValue → Coercion
  | strToInt : Coercion

/-- Apply a coercion as save-time field cleaning (`mixed.to_field(...).clean`,
`setman/fields.py` line 99); `Except.error` models a raised
`ValidationError`. -/
def applyCoercion : Coercion → PyValue → Except Unit PyValue
  | .ident, v => .ok v
  | .const c, _ => .ok c
  | .strToInt, v =>
    match v with
    | .int n => .ok (.int n)
    | .str s =>
      match parseInt s with
      | some n => .ok (.int n)
      | Option.none => .error ()
    | _ => .error ()

/-- Apply a coercion as load-time conversion (`mixed.to_python`,
`setman/fields.py` line 154).  Modelled from the spec (§4.3): a value the
coercion rejects is returned unchanged. -/
def applyToPython (c : Coercion) (v : PyValue) : PyValue :=
  match applyCoercion c v with
  | .ok v' => v'
  | .error _ => v

/-- Modelled from the spec (§3): a Setting Definition — name, default value
and its validator/coercion function, split into the save-time cleaner and the
load-time `to_python` conversion. -/
structure SettingDef : Type where
  name : String
  default : PyValue
  fieldClean : Coercion
  toPython : Coercion

/-- Modelled from the spec (§3): a Settings Container — a named group of
Setting Definitions; containers do not nest beyond one level. -/
structure ContainerDef : Type where
  appName : String
  settings : List SettingDef

/-- A top-level attribute of the schema: either a project-level Setting
Definition or a Settings Container (`is_settings_container` distinguishes
the two in the Python sources). -/
inductive SchemaItem : Type where
  | setting : SettingDef → SchemaItem
  | container : ContainerDef → SchemaItem

/-- Modelled from the spec (§4.3): `AVAILABLE_SETTINGS`, the immutable schema
object, exposing top-level Setting Definitions and Settings Containers by
attribute name. -/
structure Schema : Type where
  items : List SchemaItem

/-- The attribute name under which a schema item is reachable (a setting's
name, or a container's application name). -/
def SchemaItem.attrName : SchemaItem → String
  | .setting d => d.name
  | .container c => c.appName

/-- Model of `getattr(AVAILABLE_SETTINGS, name, None)`: find the top-level schema item
with the given attribute name. -/
def Schema.getattr (s : Schema) (name : String) : Option SchemaItem :=
  s.items.find? (fun item => item.attrName = name)

/-- Model of `hasattr(AVAILABLE_SETTINGS, name)`. -/
def Schema.hasattr (s : Schema) (name : String) : Bool :=
  (s.getattr name).isSome

/-- Model of `getattr(container, name, None)`: find the contained Setting Definition
with the given name (containers hold only settings — one-level nesting). -/
def ContainerDef.getattr (c : ContainerDef) (name : String) : Option SettingDef :=
  c.settings.find? (fun d => d.name = name)

/-- Model of `hasattr(container, name)`. -/
def ContainerDef.hasattr (c : ContainerDef) (name : String) : Bool :=
  (c.getattr name).isSome

/-- The `_settings` attribute of a `LazySettings` proxy (`setman/lazy.py`
line 32): the whole schema for the root proxy, a single container for a
scoped child proxy. -/
inductive Scope : Type where
  | root : Schema → Scope
  | app : ContainerDef → Scope

/-- Model of `getattr(self._settings, name)` on a proxy's scope. -/
def Scope.getattr : Scope → String → Option SchemaItem
  | .root s, name => s.getattr name
  | .app c, name => (c.getattr name).map SchemaItem.setting

/-- Model of `hasattr(self._settings, name)` on a proxy's scope. -/
def Scope.hasattr (sc : Scope) (name : String) : Bool :=
  (sc.getattr name).isSome

/-- The `Settings` model row (`setman/models.py` lines 16–31): primary key
(`None` until first persisted) and the `data` mapping.  The two timestamp
columns are framework-maintained and play no role in any claim, so they are
omitted. -/
structure SettingsRec : Type where
  pk : Option Nat
  data : Data

namespace Settings

/-- Model of `Settings.is_setting_name` (`setman/models.py` lines 61–67). -/
def is_setting_name (name : String) : Bool :=
  !startsWithUnderscore name &&
    !(name ∈ ["create_date", "data", "id", "objects", "pk", "update_date"])

/-- Model of `Settings.__getattr__` (`setman/models.py` lines 44–48) restricted to
setting names: `self.data.get(name)`.  Names rejected by `is_setting_name`
go to the ordinary model machinery and are outside the settings abstraction. -/
def getattrS (r : SettingsRec) (name : String) : Option PyValue :=
  if is_setting_name name then lookupA r.data name else Option.none

/-- Model of `Settings.__setattr__` (`setman/models.py` lines 50–56): for a setting
name, `self.data[name] = value` (an unset `data` is first initialised to `{}`,
which the association-list `insertA` covers).  Names rejected by
`is_setting_name` update real model fields and are left out of the
abstraction: the record is returned unchanged. -/
def setattrS (r : SettingsRec) (name : String) (value : PyValue) : SettingsRec :=
  if is_setting_name name then { r with data := insertA r.data name value } else r

/-- Model of `Settings.__delattr__` (`setman/models.py` lines 37–42): for a setting
name, `if name in self.data: del self.data[name]` — note: always the TOP
level of `data`, never a container sub-mapping.  Non-setting names go to the
ordinary attribute machinery and are left out of the abstraction. -/
def delattrS (r : SettingsRec) (name : String) : SettingsRec :=
  if is_setting_name name then { r with data := eraseA r.data name } else r

/-- Model of `Settings.validate_unique` (`setman/models.py` lines 89–100), returned as
a Bool: `true` means the `ValidationError('Only one Settings instance could
be created.')` is raised.  An unsaved record (falsy `pk`: `None`, and for
completeness `0` — Django never allocates pk 0) counts every stored row;
a persisted record excludes itself by primary key. -/
def validate_unique (db : List SettingsRec) (self : SettingsRec) : Bool :=
  let counter :=
    match self.pk with
    | Option.none => db.length
    | some 0 => db.length
    | some p => (db.filter (fun r => !(r.pk = some p))).length
  counter ≠ 0

/-- One pass of `Settings.revert` inside a container
(`setman/models.py` lines 77–87 with `values` a container): every stored key
with a matching Setting Definition is replaced by that definition's default;
keys without a matching definition are skipped silently.  Containers hold
only settings, so `is_settings_container(mixed)` is always false here. -/
def revertSub (c : ContainerDef) (m : Data) : Data :=
  m.map (fun e =>
    match c.getattr e.1 with
    | some d => (e.1, d.default)
    | Option.none => e)

/-- One top-level entry of `Settings.revert()` (`setman/models.py`
lines 77–87 with `values = AVAILABLE_SETTINGS`): a key matching a Setting
Definition is replaced by the default; a key matching a Settings Container
triggers `self.revert(name)`, which reverts the stored sub-mapping (Python
raises a `TypeError`/`AttributeError` when the stored value under a container
name is not a dict — modelled as `Option.none`); an unmatched key is skipped. -/
def revertTopEntry (s : Schema) (e : String × PyValue) : Option (String × PyValue) :=
  match s.getattr e.1 with
  | Option.none => some e
  | some (.setting d) => some (e.1, d.default)
  | some (.container c) =>
    match e.2 with
    | .dict m => some (e.1, .dict (revertSub c m))
    | _ => Option.none

/-- An `Option`-valued map over a list, failing when any entry fails (the loop
of `Settings.revert()` either completes or raises). -/
def mapOption (f : α → Option β) : List α → Option (List β)
  | [] => some []
  | a :: as =>
    match f a, mapOption f as with
    | some b, some bs => some (b :: bs)
    | _, _ => Option.none

/-- Model of `Settings.revert(app_name=None)` (`setman/models.py` lines 69–87) as a
function on the record.  `Option.none` models the calls that raise in Python:
an `app_name` the schema does not expose (`getattr` without default), a
container whose stored value is not a dict (`.items()` fails), or an
`app_name` naming a plain Setting Definition whose stored value is a
non-empty dict (iterating its keys over a setting object raises). -/
def revert (s : Schema) (appName : Option String) (r : SettingsRec) :
    Option SettingsRec :=
  match appName with
  | Option.none =>
    (mapOption (revertTopEntry s) r.data).map (fun d => { r with data := d })
  | some a =>
    match s.getattr a with
    | Option.none => Option.none
    | some (.container c) =>
      match lookupA r.data a with
      | Option.none => some r
      | some (.dict m) => some { r with data := insertA r.data a (.dict (revertSub c m)) }
      | some _ => Option.none
    | some (.setting _) =>
      match lookupA r.data a with
      | Option.none => some r
      | some (.dict []) => some r
      | some _ => Option.none

end Settings

/-- Clean the entries of one container sub-mapping
(`SettingsField.clean`, `setman/fields.py` lines 90–99, recursive call with
`settings = mixed`): declared settings are cleaned by their field cleaner,
undeclared keys pass through untouched. -/
def cleanSub (c : ContainerDef) : Data → Except Unit Data
  | [] => .ok []
  | (name, v) :: rest =>
    match (match c.getattr name with
           | Option.none => Except.ok v
           | some d => applyCoercion d.fieldClean v) with
    | .error e => .error e
    | .ok v' =>
      match cleanSub c rest with
      | .error e => .error e
      | .ok rest' => .ok ((name, v') :: rest')

/-- Clean one top-level entry of the `data` mapping (`SettingsField.clean`,
`setman/fields.py` lines 90–99): an undeclared key passes through, a declared
setting is cleaned by its field cleaner, a declared container recurses into
the stored sub-mapping (a falsy stored value is replaced by `{}` by the
`data = {} if not value else value` guard; a truthy non-dict raises —
modelled as `Except.error`). -/
def cleanEntry (s : Schema) (name : String) (v : PyValue) : Except Unit PyValue :=
  match s.getattr name with
  | Option.none => .ok v
  | some (.setting d) => applyCoercion d.fieldClean v
  | some (.container c) =>
    match v with
    | .dict m => (cleanSub c m).map PyValue.dict
    | .none => .ok (.dict [])
    | .bool false => .ok (.dict [])
    | .int 0 => .ok (.dict [])
    | .str "" => .ok (.dict [])
    | _ => .error ()

/-- Model of `SettingsField.clean(value, instance)` (`setman/fields.py` lines 83–101)
on the whole `data` mapping: per-field save-time validation/coercion.
`Except.error` models a raised `ValidationError`. -/
def cleanData (s : Schema) : Data → Except Unit Data
  | [] => .ok []
  | (name, v) :: rest =>
    match cleanEntry s name v with
    | .error e => .error e
    | .ok v' =>
      match cleanData s rest with
      | .error e => .error e
      | .ok rest' => .ok ((name, v') :: rest')

/-- Load-time conversion of one container sub-mapping
(`SettingsField._settings_to_python`, `setman/fields.py` lines 144–156,
recursive call): declared settings go through `to_python`, the rest pass
through. -/
def subToPython (c : ContainerDef) (m : Data) : Data :=
  m.map (fun e =>
    match c.getattr e.1 with
    | some d => (e.1, applyToPython d.toPython e.2)
    | Option.none => e)

/-- Model of `SettingsField._settings_to_python(data)` (`setman/fields.py`
lines 144–156): applied whenever a row is materialised from the database.
A non-dict stored under a declared container name would raise in Python; no
claim touches that state and the value is passed through unchanged here. -/
def settingsToPython (s : Schema) (data : Data) : Data :=
  data.map (fun e =>
    match s.getattr e.1 with
    | Option.none => e
    | some (.setting d) => (e.1, applyToPython d.toPython e.2)
    | some (.container c) =>
      match e.2 with
      | .dict m => (e.1, .dict (subToPython c m))
      | _ => e)

/-- A materialised row as `Settings.objects.get()` returns it: the stored
`data` converted by `SettingsField.to_python` /
`_settings_to_python` (`setman/fields.py` lines 124–156). -/
def loadRec (s : Schema) (r : SettingsRec) : SettingsRec :=
  { r with data := settingsToPython s r.data }

/-- The errors the embedded operations can raise. -/
inductive PyErr : Type where
  | settingsHasNot : String → PyErr
  | noAttribute : String → String → PyErr
  | onlyOneSettings : PyErr
  | fieldValidation : List String → PyErr
  | multipleObjectsReturned : PyErr

/-- The mutable world: the Django settings object (an attribute mapping), the
`Settings` table, the process-wide resolution cache (the single
`'setman__custom_cache'` key of Django's cache, spec §6) and the next primary
key the store will allocate. -/
structure GState : Type where
  django : Data
  db : List SettingsRec
  resCache : Option SettingsRec
  nextPk : Nat

/-- Model of `clear_settings_cache` (`setman/models.py` lines 103–112), the
`post_save` receiver: `settings._clear()` plus `cache.delete(CACHE_KEY)` —
both delete the single resolution-cache entry.  (`setman/managers.py` is not
in the sources; per spec §6 the process-wide cache has the one constant key.) -/
def clear_settings_cache (st : GState) : GState :=
  { st with resCache := Option.none }

/-- Store a cleaned record: `Model.save()`'s write.  A record with a primary
key updates its row (Django inserts when no such row exists); a fresh record
is inserted under the next free key.  Returns the stored row and its key. -/
def storeRow (st : GState) (rec : SettingsRec) : SettingsRec × GState :=
  match rec.pk with
  | some p =>
    if st.db.any (fun r => r.pk = some p) then
      (rec, { st with db := st.db.map (fun r => if r.pk = some p then rec else r) })
    else
      (rec, { st with db := st.db ++ [rec] })
  | Option.none =>
    let rec' := { rec with pk := some st.nextPk }
    (rec', { st with db := st.db ++ [rec'], nextPk := st.nextPk + 1 })

/-- Model of `Settings(...).save()`: the `pre_save` receiver `validate_settings`
(`setman/models.py` lines 115–130) runs `full_clean` — per-field
cleaning/coercion of `data` (`SettingsField.clean`), then
`Settings.validate_unique` — and then the row is written and the `post_save`
receiver `clear_settings_cache` fires.  A field-validation failure surfaces
keyed by the field name (`['data']`, never `['id']`, so the id-artifact
swallow of `validate_settings` never applies on these paths); a uniqueness
failure surfaces as the distinguishable single-instance violation.  On
success the saved row (with its key and cleaned data) is returned. -/
def saveRec (s : Schema) (st : GState) (rec : SettingsRec) :
    Except PyErr (SettingsRec × GState) :=
  match cleanData s rec.data with
  | .error _ => .error (.fieldValidation ["data"])
  | .ok data' =>
    if Settings.validate_unique st.db rec then
      .error .onlyOneSettings
    else
      let (rec', st') := storeRow st { rec with data := data' }
      .ok (rec', clear_settings_cache st')

/-- Model of `LazySettings._get_custom_settings` (`setman/lazy.py` lines 158–165):
`Settings.objects.get()`, creating the row with empty data when none exists.
(`SettingsManager` is not in the sources; per spec §6 the store supports
"get the one row", failing distinctly on more than one, and "create".)
A fetched row is materialised through `SettingsField.to_python`. -/
def getCustomSettingsM (s : Schema) (st : GState) :
    Except PyErr (SettingsRec × GState) :=
  match st.db with
  | [] => saveRec s st ⟨Option.none, []⟩
  | [r] => .ok (loadRec s r, st)
  | _ => .error .multipleObjectsReturned

/-- The `LazySettings._custom` property (`setman/lazy.py` lines 142–156):
return the cached record when the resolution cache holds one, otherwise load
(or lazily create) the row and repopulate the cache.  Scoped proxies reach
this through their parent, so the root state is always consulted. -/
def getCustomM (s : Schema) (st : GState) :
    Except PyErr (SettingsRec × GState) :=
  match st.resCache with
  | some r => .ok (r, st)
  | Option.none =>
    match getCustomSettingsM s st with
    | .ok (r, st') => .ok (r, { st' with resCache := some r })
    | .error e => .error e

/-- What `LazySettings._get_setting_value` can hand back: a plain value, or —
for a schema Settings Container — a fresh scoped child proxy
(`LazySettings(mixed, name, self)`, `setman/lazy.py` line 66), recorded here
by its container name and definition. -/
inductive Resolved : Type where
  | value : PyValue → Resolved
  | child : String → ContainerDef → Resolved

/-- The condition-and-read `prefix and prefix in data and name in data[prefix]`
→ `data[prefix][name]` (`setman/lazy.py` lines 53–54): `some v` exactly when
a scoped proxy finds `name` in its container's sub-mapping.  A non-dict value
stored under the prefix cannot contain a key (a non-string value would raise
`TypeError` in Python; the spec's two-level `data` invariant, §3, rules the
state out), so it reads as a miss. -/
def subLookup (data : Data) (pfx : Option String) (name : String) : Option PyValue :=
  match pfx with
  | Option.none => Option.none
  | some p =>
    match lookupA data p with
    | some (.dict m) => lookupA m name
    | _ => Option.none

/-- Layers (c)–(e) of `LazySettings._get_setting_value` (`setman/lazy.py`
lines 59–71): the Django settings object, then the proxy's schema scope
(a container yields a scoped child proxy, a setting its declared default),
then the `AttributeError('Settings has not attribute %r' % name)`. -/
def resolveTail (sc : Scope) (django : Data) (name : String) : Except PyErr Resolved :=
  match lookupA django name with
  | some v => .ok (.value v)
  | Option.none =>
    match sc.getattr name with
    | some (.container c) => .ok (.child name c)
    | some (.setting d) => .ok (.value d.default)
    | Option.none => .error (.settingsHasNot name)

/-- The full cascade of `LazySettings._get_setting_value` (`setman/lazy.py`
lines 49–71) on a materialised `data` mapping: container sub-mapping (when
scoped), then the top level of `data` (only for a value that is not itself a
dict), then Django settings, then the schema, else the unknown-setting
error. -/
def resolveName (pfx : Option String) (sc : Scope) (django : Data)
    (data : Data) (name : String) : Except PyErr Resolved :=
  match subLookup data pfx name with
  | some v => .ok (.value v)
  | Option.none =>
    match lookupA data name with
    | some v => if v.isDict then resolveTail sc django name else .ok (.value v)
    | Option.none => resolveTail sc django name

/-- Model of `LazySettings._get_setting_value` including its `self._custom` fetch
(`setman/lazy.py` line 50): materialise the shared record (possibly loading
or creating it), then run the cascade. -/
def getSettingValue (s : Schema) (sc : Scope) (pfx : Option String)
    (st : GState) (name : String) : Except PyErr (Resolved × GState) :=
  match getCustomM s st with
  | .error e => .error e
  | .ok (custom, st') =>
    match resolveName pfx sc st.django custom.data name with
    | .ok v => .ok (v, st')
    | .error e => .error e

/-- The per-instance micro-cache (`ExpiringDict(max_len=20,
max_age_seconds=10)`, `setman/lazy.py` line 35): at most one entry per name,
each carrying its insertion instant; oldest entry first. -/
abbrev MicroCache := List (String × Resolved × Nat)

/-- Model of `self._cache.get(name, None)` at instant `now`: the stored entry when
present and younger than 10 seconds, else `Option.none`. -/
def microGet (mc : MicroCache) (name : String) (now : Nat) : Option Resolved :=
  match mc with
  | [] => Option.none
  | (k, v, t) :: rest =>
    if k = name then (if now - t < 10 then some v else Option.none)
    else microGet rest name now

/-- Overwrite the entry carrying `name` (helper of `microPut`). -/
def replaceEntry (name : String) (v : Resolved) (now : Nat)
    (e : String × Resolved × Nat) : String × Resolved × Nat :=
  if e.1 = name then (name, v, now) else e

/-- Model of `self._cache[name] = value` at instant `now`: when the dict is full
(20 entries) the oldest entry is evicted first (`popitem(last=False)`), then
the name's entry is written (an existing key keeps its position). -/
def microPut (mc : MicroCache) (name : String) (v : Resolved) (now : Nat) :
    MicroCache :=
  let mc' := if mc.length = 20 then mc.tail else mc
  if mc'.any (fun e => e.1 = name) then
    mc'.map (replaceEntry name v now)
  else
    mc' ++ [(name, v, now)]

/-- One `LazySettings` view: its schema scope (`_settings`), its container
prefix (`_prefix`) and its micro-cache (`_cache`).  The `_parent` chain only
serves to reach the shared record, which lives in the global state here, so
it needs no field. -/
structure Proxy : Type where
  scope : Scope
  pfx : Option String
  mc : MicroCache

/-- The root (project-level) proxy over a schema, as built by
`LazySettings()`. -/
def rootProxy (s : Schema) : Proxy :=
  ⟨.root s, Option.none, []⟩

/-- The scoped child proxy a resolved `Resolved.child` denotes:
`LazySettings(mixed, name, self)` — container scope, the container's name as
prefix, fresh micro-cache. -/
def childProxy (name : String) (c : ContainerDef) : Proxy :=
  ⟨.app c, some name, []⟩

/-- The re-resolve-and-store arm of `LazySettings.__getattr__`
(`setman/lazy.py` lines 86–89): resolve, write the value into the micro-cache,
return it. -/
def resolveStore (s : Schema) (p : Proxy) (st : GState) (name : String)
    (now : Nat) : Except PyErr (Resolved × Proxy × GState) :=
  match getSettingValue s p.scope p.pfx st name with
  | .error e => .error e
  | .ok (v, st') => .ok (v, { p with mc := microPut p.mc name v now }, st')

/-- Model of `LazySettings.__getattr__` (`setman/lazy.py` lines 73–91).  An
underscore name falls to `_safe_super_method`, which raises the formatted
`AttributeError` (`object` has no `__getattr__`).  Otherwise
`self._cache.get(name, None)` is compared with `None`: a genuine miss, an
expired entry, and a cached value `None` are indistinguishable and all
re-resolve; any other cached value is returned as is. -/
def lazyGetattr (s : Schema) (p : Proxy) (st : GState) (name : String)
    (now : Nat) : Except PyErr (Resolved × Proxy × GState) :=
  if startsWithUnderscore name then .error (.noAttribute "LazySettings" name)
  else
    match microGet p.mc name now with
    | some (.value .none) => resolveStore s p st name now
    | some rv => .ok (rv, p, st)
    | Option.none => resolveStore s p st name now

/-- Model of `cache.delete(CACHE_KEY)` (`setman/lazy.py` lines 47, 108, 119) and the
`LazySettings._clear` method (lines 133–138): drop the resolution-cache
entry. -/
def cacheDelete (st : GState) : GState :=
  { st with resCache := Option.none }

/-- Model of `LazySettings.__setattr__` (`setman/lazy.py` lines 93–119).  An
underscore name is stored as a plain instance attribute by
`_safe_super_method` — no settings-visible effect.  A name the Django
settings object exposes is written there and nothing else happens.  Else the
root view sets the name on the shared record (top level) and saves; a scoped
view ensures its container's sub-mapping exists, updates the name inside it
and saves; both then delete the resolution-cache entry.  (`.update` on a
non-dict stored under the prefix raises in Python, modelled by
`PyErr.noAttribute`.) -/
def lazySetattr (s : Schema) (pfx : Option String) (st : GState)
    (name : String) (value : PyValue) : Except PyErr GState :=
  if startsWithUnderscore name then .ok st
  else if containsA st.django name then
    .ok { st with django := insertA st.django name value }
  else
    match pfx with
    | Option.none =>
      match getCustomM s st with
      | .error e => .error e
      | .ok (custom, st') =>
        match saveRec s st' (Settings.setattrS custom name value) with
        | .error e => .error e
        | .ok (_, st'') => .ok (cacheDelete st'')
    | some p =>
      match getCustomM s st with
      | .error e => .error e
      | .ok (custom, st') =>
        match lookupA custom.data p with
        | Option.none =>
          match saveRec s st'
              { custom with data := insertA custom.data p (.dict [(name, value)]) } with
          | .error e => .error e
          | .ok (_, st'') => .ok (cacheDelete st'')
        | some (.dict m) =>
          match saveRec s st'
              { custom with data := insertA custom.data p (.dict (insertA m name value)) } with
          | .error e => .error e
          | .ok (_, st'') => .ok (cacheDelete st'')
        | some _ => .error (.noAttribute "value" "update")

/-- Model of `LazySettings.__delattr__` (`setman/lazy.py` lines 37–47).  An underscore
name goes to the plain attribute machinery — no settings-visible effect.  A
name the Django settings object exposes is deleted there.  Otherwise
`delattr(custom, name)` — which is `Settings.__delattr__` and touches only
the TOP level of `data`, whatever the proxy's prefix — then save and delete
the resolution-cache entry. -/
def lazyDelattr (s : Schema) (st : GState) (name : String) :
    Except PyErr GState :=
  if startsWithUnderscore name then .ok st
  else if containsA st.django name then
    .ok { st with django := eraseA st.django name }
  else
    match getCustomM s st with
    | .error e => .error e
    | .ok (custom, st') =>
      match saveRec s st' (Settings.delattrS custom name) with
      | .error e => .error e
      | .ok (_, st'') => .ok (cacheDelete st'')

/-- The shape of a Django `ValidationError` as the `validate_settings`
receiver inspects it: whether it carries a per-field `message_dict`, and that
mapping's key list. -/
structure ValError : Type where
  hasMessageDict : Bool
  keys : List String

/-- The `pre_save` receiver `validate_settings` (`setman/models.py`
lines 115–130), abstracted over the outcome of `instance.full_clean()`
(`Option.none` = no error raised): an error whose `message_dict` keys are
exactly `['id']` is swallowed and the save proceeds; every other error
propagates to the caller. -/
def validate_settings (e : Option ValError) : Option ValError :=
  match e with
  | Option.none => Option.none
  | some err =>
    if err.hasMessageDict = true ∧ err.keys = ["id"] then Option.none
    else some err

/-- One helper lemma target: a complete write/read round trip through the
root proxy — write `v` under `name`, then read `name` back on a fresh root
proxy (empty micro-cache, instant 0) over the post-write state.  Returns the
re-read resolution, `Option.none` when either operation raises. -/
def roundTrip (s : Schema) (st : GState) (name : String) (v : PyValue) :
    Option Resolved :=
  match lazySetattr s Option.none st name v with
  | .error _ => Option.none
  | .ok st' =>
    match lazyGetattr s (rootProxy s) st' name 0 with
    | .ok (rv, _, _) => some rv
    | .error _ => Option.none

/-! ### Concrete instances used by witnesses and counterexamples -/

/-- A schema declaring one integer-coerced project setting. -/
def priceSchema : Schema :=
  ⟨[.setting ⟨"PRICE", .int 0, .strToInt, .ident⟩]⟩

/-- The spec's example container: `blog` with `POSTS_PER_PAGE` default 10. -/
def blogContainer : ContainerDef :=
  ⟨"blog", [⟨"POSTS_PER_PAGE", .int 10, .ident, .ident⟩]⟩

/-- The spec's example schema: `SITE_TITLE` default "My Site" plus the
`blog` container. -/
def demoSchema : Schema :=
  ⟨[.setting ⟨"SITE_TITLE", .str "My Site", .ident, .ident⟩,
    .container blogContainer]⟩

/-- A steady state: one persisted empty record, resolution cache cold. -/
def stOneEmpty : GState :=
  ⟨[], [⟨some 1, []⟩], Option.none, 2⟩

/-- A steady state with the record cached: one persisted empty record, warm
resolution cache. -/
def stOneCached : GState :=
  ⟨[], [⟨some 1, []⟩], some ⟨some 1, []⟩, 2⟩

/-- A state whose record stores `X` only inside the `app1` sub-mapping, with
the resolution cache warm. -/
def stApp1X : GState :=
  ⟨[], [⟨some 1, [("app1", .dict [("X", .int 5)])]⟩],
   some ⟨some 1, [("app1", .dict [("X", .int 5)])]⟩, 2⟩

/-- A micro-cache holding a fresh entry whose cached value is `None`. -/
def mcNoneX : MicroCache := [("X", .value .none, 0)]

/-- A state where Django settings expose `X = 7`, the record is empty and
cached. -/
def stDjangoX : GState :=
  ⟨[("X", .int 7)], [⟨some 1, []⟩], some ⟨some 1, []⟩, 2⟩

/-- A root proxy over the empty schema whose micro-cache is `mcNoneX`. -/
def pNoneX : Proxy := ⟨.root ⟨[]⟩, Option.none, mcNoneX⟩

/-! ## Helper lemmas about the embedded operations -/

theorem lookupA_insertA_self (d : Data) (k : String) (v : PyValue) :
    lookupA (insertA d k v) k = some v := by
  induction d with
  | nil => simp [insertA, lookupA]
  | cons e rest ih =>
    obtain ⟨k', v'⟩ := e
    by_cases h : k' = k
    · simp [insertA, h, lookupA]
    · simp [insertA, h, lookupA, ih]

theorem lookupA_insertA_ne (d : Data) (k k' : String) (v : PyValue)
    (h : k' ≠ k) : lookupA (insertA d k v) k' = lookupA d k' := by
  induction d with
  | nil => simp [insertA, lookupA, Ne.symm h]
  | cons e rest ih =>
    obtain ⟨a, b⟩ := e
    by_cases ha : a = k
    · subst ha
      simp [insertA, lookupA, Ne.symm h]
    · simp [insertA, lookupA, ha, ih]

theorem insertA_of_lookup_self (d : Data) (k : String) (v : PyValue)
    (h : lookupA d k = some v) : insertA d k v = d := by
  induction d with
  | nil => simp [lookupA] at h
  | cons e rest ih =>
    obtain ⟨a, b⟩ := e
    by_cases ha : a = k
    · subst ha
      simp [lookupA] at h
      simp [insertA, h]
    · simp [lookupA, ha] at h
      simp [insertA, ha, ih h]

theorem eraseA_of_lookup_none (d : Data) (k : String)
    (h : lookupA d k = Option.none) : eraseA d k = d := by
  induction d with
  | nil => simp [eraseA]
  | cons e rest ih =>
    obtain ⟨a, b⟩ := e
    by_cases ha : a = k
    · simp [lookupA, ha] at h
    · simp [lookupA, ha] at h
      simp [eraseA, ha, ih h]

theorem lookupA_eraseA_ne (d : Data) (k k' : String) (h : k' ≠ k) :
    lookupA (eraseA d k) k' = lookupA d k' := by
  induction d with
  | nil => simp [eraseA]
  | cons e rest ih =>
    obtain ⟨a, b⟩ := e
    by_cases ha : a = k
    · subst ha
      simp [eraseA, lookupA, Ne.symm h]
    · simp [eraseA, lookupA, ha, ih]

theorem cleanEntry_of_undeclared (s : Schema) (name : String) (v : PyValue)
    (h : s.getattr name = Option.none) : cleanEntry s name v = .ok v := by
  simp [cleanEntry, h]

theorem cleanData_of_undeclared (s : Schema) (d : Data)
    (h : ∀ e ∈ d, s.getattr e.1 = Option.none) : cleanData s d = .ok d := by
  induction d with
  | nil => simp [cleanData]
  | cons e rest ih =>
    obtain ⟨n, v⟩ := e
    have hn : s.getattr n = Option.none := h (n, v) (by simp)
    have hrest : ∀ e ∈ rest, s.getattr e.1 = Option.none :=
      fun e he => h e (by simp [he])
    simp [cleanData, cleanEntry_of_undeclared s n v hn, ih hrest]

theorem cleanData_lookup_undeclared (s : Schema) (d d' : Data)
    (hc : cleanData s d = .ok d') (k : String)
    (hk : s.getattr k = Option.none) : lookupA d' k = lookupA d k := by
  induction d generalizing d' with
  | nil =>
    simp [cleanData] at hc
    simp [hc]
  | cons e rest ih =>
    obtain ⟨n, v⟩ := e
    simp only [cleanData] at hc
    cases h1 : cleanEntry s n v with
    | error err => rw [h1] at hc; cases hc
    | ok v' =>
      rw [h1] at hc
      cases h2 : cleanData s rest with
      | error err => rw [h2] at hc; cases hc
      | ok rest' =>
        rw [h2] at hc
        cases hc
        by_cases hn : n = k
        · subst hn
          rw [cleanEntry_of_undeclared s n v hk] at h1
          cases h1
          simp [lookupA]
        · simp [lookupA, hn, ih rest' h2]

theorem settingsToPython_of_undeclared (s : Schema) (d : Data)
    (h : ∀ e ∈ d, s.getattr e.1 = Option.none) : settingsToPython s d = d := by
  induction d with
  | nil => simp [settingsToPython]
  | cons e rest ih =>
    have hn : s.getattr e.1 = Option.none := h e (by simp)
    have hrest : settingsToPython s rest = rest := by
      have := fun e he => h e (List.mem_cons_of_mem _ he)
      simpa [settingsToPython] using ih this
    simp only [settingsToPython, List.map_cons] at hrest ⊢
    simp [hn, hrest]

theorem revertSub_idem (c : ContainerDef) (m : Data) :
    Settings.revertSub c (Settings.revertSub c m) = Settings.revertSub c m := by
  induction m with
  | nil => simp [Settings.revertSub]
  | cons e rest ih =>
    simp only [Settings.revertSub, List.map_cons, List.map_map] at ih ⊢
    refine congrArg₂ _ ?_ ih
    cases h : c.getattr e.1 with
    | none => simp [h]
    | some d => simp [h]

theorem revertTopEntry_idem (s : Schema) (e e' : String × PyValue)
    (h : Settings.revertTopEntry s e = some e') :
    Settings.revertTopEntry s e' = some e' := by
  cases hg : s.getattr e.1 with
  | none =>
    simp [Settings.revertTopEntry, hg] at h
    subst h
    simp [Settings.revertTopEntry, hg]
  | some item =>
    cases item with
    | setting d =>
      simp [Settings.revertTopEntry, hg] at h
      subst h
      simp [Settings.revertTopEntry, hg]
    | container c =>
      cases hv : e.2 with
      | dict m =>
        simp [Settings.revertTopEntry, hg, hv] at h
        subst h
        simp [Settings.revertTopEntry, hg, revertSub_idem]
      | none => simp [Settings.revertTopEntry, hg, hv] at h
      | bool b => simp [Settings.revertTopEntry, hg, hv] at h
      | int n => simp [Settings.revertTopEntry, hg, hv] at h
      | str t => simp [Settings.revertTopEntry, hg, hv] at h

theorem mapOption_idem {α : Type} (f : α → Option α)
    (hf : ∀ a b, f a = some b → f b = some b) :
    ∀ (l l' : List α), Settings.mapOption f l = some l' →
      Settings.mapOption f l' = some l' := by
  intro l
  induction l with
  | nil =>
    intro l' h
    simp [Settings.mapOption] at h
    subst h
    simp [Settings.mapOption]
  | cons a rest ih =>
    intro l' h
    simp only [Settings.mapOption] at h
    cases h1 : f a with
    | none => rw [h1] at h; cases h
    | some b =>
      rw [h1] at h
      cases h2 : Settings.mapOption f rest with
      | none => rw [h2] at h; cases h
      | some bs =>
        rw [h2] at h
        cases h
        simp only [Settings.mapOption]
        rw [hf a b h1, ih bs h2]

theorem replaceEntry_hit (name : String) (v v' : Resolved) (now t : Nat) :
    replaceEntry name v now (name, v', t) = (name, v, now) := by
  simp [replaceEntry]

theorem replaceEntry_miss (name k : String) (v v' : Resolved) (now t : Nat)
    (h : ¬k = name) : replaceEntry name v now (k, v', t) = (k, v', t) := by
  simp [replaceEntry, h]

theorem microGet_map_replace (name : String) (v : Resolved) (now : Nat) :
    ∀ (l : MicroCache), l.any (fun e => e.1 = name) = true →
      microGet (l.map (replaceEntry name v now)) name now = some v := by
  intro l
  induction l with
  | nil => simp
  | cons e rest ih =>
    intro h
    obtain ⟨k, v', t⟩ := e
    by_cases he : k = name
    · subst he
      rw [List.map_cons, replaceEntry_hit]
      simp [microGet, Nat.sub_self]
    · have hrest : rest.any (fun e => e.1 = name) = true := by
        simp only [List.any_cons, Bool.or_eq_true] at h
        rcases h with h | h
        · exact absurd (by simpa using h) he
        · exact h
      rw [List.map_cons, replaceEntry_miss name k v v' now t he]
      simp [microGet, he, ih hrest]

theorem microGet_append_absent (name : String) (v : Resolved) (now : Nat) :
    ∀ (l : MicroCache), l.any (fun e => e.1 = name) = false →
      microGet (l ++ [(name, v, now)]) name now = some v := by
  intro l
  induction l with
  | nil => simp [microGet, Nat.sub_self]
  | cons e rest ih =>
    intro h
    obtain ⟨k, v', t⟩ := e
    rw [List.any_cons] at h
    have h1 : ¬k = name := by
      intro hk
      rw [hk] at h
      simp at h
    have h2 : rest.any (fun e => e.1 = name) = false := by
      rcases Bool.or_eq_false_iff.mp h with ⟨-, hh⟩
      exact hh
    simp [microGet, h1, ih h2]

theorem microGet_microPut (mc : MicroCache) (name : String) (v : Resolved)
    (now : Nat) : microGet (microPut mc name v now) name now = some v := by
  simp only [microPut]
  set mc' := if mc.length = 20 then mc.tail else mc with hmc'
  by_cases h : mc'.any (fun e => e.1 = name) = true
  · simp only [h, if_true]
    exact microGet_map_replace name v now mc' h
  · have hf : mc'.any (fun e => e.1 = name) = false := Bool.eq_false_iff.mpr h
    simp only [hf, Bool.false_eq_true, if_false]
    exact microGet_append_absent name v now mc' hf

theorem validate_unique_nil (rec : SettingsRec) :
    Settings.validate_unique [] rec = false := by
  cases h : rec.pk with
  | none => simp [Settings.validate_unique, h]
  | some p =>
    cases p with
    | zero => simp [Settings.validate_unique, h]
    | succ m => simp [Settings.validate_unique, h]

theorem validate_unique_all_self (db : List SettingsRec) (rec : SettingsRec)
    (m : Nat) (hpk : rec.pk = some (m + 1))
    (hall : ∀ r ∈ db, r.pk = some (m + 1)) :
    Settings.validate_unique db rec = false := by
  have hfilter : db.filter (fun r => !(r.pk = some (m + 1))) = [] := by
    induction db with
    | nil => simp
    | cons r rest ih =>
      have hr : r.pk = some (m + 1) := hall r (by simp)
      have := ih (fun r hr => hall r (by simp [hr]))
      simp [List.filter_cons, hr, this]
  simp [Settings.validate_unique, hpk, hfilter]

theorem validate_unique_other (db : List SettingsRec) (rec other : SettingsRec)
    (hmem : other ∈ db) (hne : other.pk ≠ rec.pk) :
    Settings.validate_unique db rec = true := by
  have hlen : db.length ≠ 0 := by
    cases db with
    | nil => cases hmem
    | cons a l => simp
  cases h : rec.pk with
  | none => simp [Settings.validate_unique, h, hlen]
  | some p =>
    cases p with
    | zero => simp [Settings.validate_unique, h, hlen]
    | succ m =>
      have hmem' : other ∈ db.filter (fun r => !(r.pk = some (m + 1))) := by
        rw [List.mem_filter]
        refine ⟨hmem, ?_⟩
        simp only [Bool.not_eq_true']
        rw [h] at hne
        simpa using hne
      have : db.filter (fun r => !(r.pk = some (m + 1))) ≠ [] :=
        List.ne_nil_of_mem hmem'
      have hl : (db.filter (fun r => !(r.pk = some (m + 1)))).length ≠ 0 := by
        simpa [List.length_eq_zero] using this
      simp [Settings.validate_unique, h, hl]

theorem lookupA_none_of_containsA_false (d : Data) (k : String)
    (h : containsA d k = false) : lookupA d k = Option.none := by
  unfold containsA at h
  cases hl : lookupA d k with
  | none => rfl
  | some v => rw [hl] at h; cases h

/-! ## The claims -/

/-- C9: when pre-save validation raises a validation error whose per-field
message mapping has exactly the single key 'id', the error is swallowed and
the save proceeds; a validation error with any other key set propagates to
the caller (and a clean run proceeds as well). -/
theorem C9_id_artifact_swallowed :
    validate_settings (some ⟨true, ["id"]⟩) = Option.none ∧
    (∀ err : ValError, ¬(err.hasMessageDict = true ∧ err.keys = ["id"]) →
      validate_settings (some err) = some err) ∧
    validate_settings Option.none = Option.none := by
  refine ⟨?_, ?_, rfl⟩
  · simp [validate_settings]
  · intro err h
    simp only [validate_settings]
    rw [if_neg h]

/-- Witness for C9: a validation error keyed by the `data` field propagates
unchanged. -/
theorem C9_witness :
    validate_settings (some ⟨true, ["data"]⟩) = some ⟨true, ["data"]⟩ :=
  C9_id_artifact_swallowed.2.1 ⟨true, ["data"]⟩ (by decide)

/-- C3: persisting while another record (a row with a different primary key,
i.e. not the record itself by identity) exists raises the distinguishable
multiple-records violation; persisting when no other record exists — an empty
store, or a store holding only the record itself — does not raise it. -/
theorem C3_singleton_invariant :
    (∀ (s : Schema) (st : GState) (rec other : SettingsRec) (d : Data),
        cleanData s rec.data = .ok d →
        other ∈ st.db → other.pk ≠ rec.pk →
        saveRec s st rec = .error .onlyOneSettings) ∧
    (∀ (s : Schema) (st : GState) (rec : SettingsRec) (d : Data),
        cleanData s rec.data = .ok d → st.db = [] →
        (saveRec s st rec).isOk = true) ∧
    (∀ (s : Schema) (st : GState) (rec : SettingsRec) (d : Data) (m : Nat),
        cleanData s rec.data = .ok d → rec.pk = some (m + 1) →
        (∀ r ∈ st.db, r.pk = some (m + 1)) →
        (saveRec s st rec).isOk = true) := by
  refine ⟨?_, ?_, ?_⟩
  · intro s st rec other d hc hmem hne
    have hv := validate_unique_other st.db rec other hmem hne
    simp [saveRec, hc, hv]
  · intro s st rec d hc hdb
    have hv : Settings.validate_unique st.db rec = false := by
      rw [hdb]; exact validate_unique_nil rec
    cases hpk : rec.pk with
    | none => simp [saveRec, hc, hv, storeRow, hpk, Except.isOk, Except.toBool]
    | some p => cases hany : st.db.any (fun r => r.pk = some p) with
      | true => simp [saveRec, hc, hv, storeRow, hpk, hany, Except.isOk, Except.toBool]
      | false => simp [saveRec, hc, hv, storeRow, hpk, hany, Except.isOk, Except.toBool]
  · intro s st rec d m hc hpk hall
    have hv := validate_unique_all_self st.db rec m hpk hall
    cases hany : st.db.any (fun r => r.pk = some (m + 1)) with
    | true => simp [saveRec, hc, hv, storeRow, hpk, hany, Except.isOk, Except.toBool]
    | false => simp [saveRec, hc, hv, storeRow, hpk, hany, Except.isOk, Except.toBool]

/-- Witness for C3: saving a fresh record while a persisted row already
exists raises the single-instance violation. -/
theorem C3_witness :
    saveRec ⟨[]⟩ stOneCached ⟨Option.none, []⟩ = .error .onlyOneSettings :=
  C3_singleton_invariant.1 ⟨[]⟩ stOneCached ⟨Option.none, []⟩ ⟨some 1, []⟩ []
    rfl (by simp [stOneCached]) (by simp)

/-- C10: the Settings Record accepts and stores, via attribute write, any
name that does not start with an underscore and is not reserved
('create_date', 'data', 'id', 'objects', 'pk', 'update_date'), even when the
schema does not declare it; per-field cleaning leaves every undeclared key
and its value unchanged, so a record containing only undeclared keys passes
field validation unchanged. -/
theorem C10_undeclared_names_accepted :
    (∀ (r : SettingsRec) (name : String) (v : PyValue),
        Settings.is_setting_name name = true →
        (Settings.setattrS r name v).data = insertA r.data name v ∧
        (Settings.setattrS r name v).pk = r.pk) ∧
    (∀ name : String,
        Settings.is_setting_name name = true ↔
          (startsWithUnderscore name = false ∧
           ¬name ∈ ["create_date", "data", "id", "objects", "pk",
                    "update_date"])) ∧
    (∀ (s : Schema) (d d' : Data) (name : String),
        cleanData s d = .ok d' → s.getattr name = Option.none →
        lookupA d' name = lookupA d name) ∧
    (∀ (s : Schema) (d : Data),
        (∀ e ∈ d, s.getattr e.1 = Option.none) → cleanData s d = .ok d) := by
  refine ⟨?_, ?_, ?_, ?_⟩
  · intro r name v h
    constructor <;> simp [Settings.setattrS, h]
  · intro name
    simp [Settings.is_setting_name, Bool.and_eq_true, Bool.not_eq_true']
  · intro s d d' name hc hk
    exact cleanData_lookup_undeclared s d d' hc name hk
  · intro s d h
    exact cleanData_of_undeclared s d h

/-- Witness for C10: an undeclared key is stored by attribute write and
passes field validation unchanged. -/
theorem C10_witness :
    (Settings.setattrS ⟨some 1, []⟩ "CUSTOM_KEY" (.int 3)).data =
      [("CUSTOM_KEY", PyValue.int 3)] ∧
    cleanData ⟨[]⟩ [("CUSTOM_KEY", PyValue.int 3)] =
      .ok [("CUSTOM_KEY", PyValue.int 3)] :=
  ⟨((C10_undeclared_names_accepted.1 ⟨some 1, []⟩ "CUSTOM_KEY" (.int 3)
      (by decide)).1).trans rfl,
   C10_undeclared_names_accepted.2.2.2 ⟨[]⟩ [("CUSTOM_KEY", PyValue.int 3)]
     (fun e he => rfl)⟩

/-- C1: `_get_setting_value` resolves in the layered order — container
sub-mapping (when scoped), then the top-level `data` mapping (only when the
stored value is not itself a sub-mapping), then the Django settings object,
then the schema (a scoped child proxy for a container name, the declared
default for a setting name), else the unknown-setting error; in particular,
once resolution reaches the host-configuration layer, a name present both
there and as a schema default resolves to the host-configuration value,
never the default. -/
theorem C1_layering_order (pfx : Option String) (sc : Scope)
    (django data : Data) (name : String) :
    (∀ v, subLookup data pfx name = some v →
        resolveName pfx sc django data name = .ok (.value v)) ∧
    (subLookup data pfx name = Option.none →
      ∀ v, lookupA data name = some v → v.isDict = false →
        resolveName pfx sc django data name = .ok (.value v)) ∧
    (subLookup data pfx name = Option.none →
      (∀ w, lookupA data name = some w → w.isDict = true) →
      ∀ v, lookupA django name = some v →
        resolveName pfx sc django data name = .ok (.value v)) ∧
    (subLookup data pfx name = Option.none →
      (∀ w, lookupA data name = some w → w.isDict = true) →
      lookupA django name = Option.none →
      (∀ c, sc.getattr name = some (.container c) →
          resolveName pfx sc django data name = .ok (.child name c)) ∧
      (∀ d, sc.getattr name = some (.setting d) →
          resolveName pfx sc django data name = .ok (.value d.default))) ∧
    (subLookup data pfx name = Option.none →
      (∀ w, lookupA data name = some w → w.isDict = true) →
      lookupA django name = Option.none →
      sc.getattr name = Option.none →
      resolveName pfx sc django data name = .error (.settingsHasNot name)) ∧
    (subLookup data pfx name = Option.none →
      (∀ w, lookupA data name = some w → w.isDict = true) →
      ∀ v d, lookupA django name = some v →
        sc.getattr name = some (.setting d) →
        resolveName pfx sc django data name = .ok (.value v)) := by
  refine ⟨?_, ?_, ?_, ?_, ?_, ?_⟩
  · intro v hsub
    simp [resolveName, hsub]
  · intro hsub v htop hdict
    simp [resolveName, hsub, htop, hdict]
  · intro hsub hw v hv
    cases htop : lookupA data name with
    | none => simp [resolveName, hsub, htop, resolveTail, hv]
    | some w =>
      have hwd := hw w htop
      simp [resolveName, hsub, htop, hwd, resolveTail, hv]
  · intro hsub hw hdj
    constructor
    · intro c hc
      cases htop : lookupA data name with
      | none => simp [resolveName, hsub, htop, resolveTail, hdj, hc]
      | some w =>
        have hwd := hw w htop
        simp [resolveName, hsub, htop, hwd, resolveTail, hdj, hc]
    · intro d hd
      cases htop : lookupA data name with
      | none => simp [resolveName, hsub, htop, resolveTail, hdj, hd]
      | some w =>
        have hwd := hw w htop
        simp [resolveName, hsub, htop, hwd, resolveTail, hdj, hd]
  · intro hsub hw hdj hsc
    cases htop : lookupA data name with
    | none => simp [resolveName, hsub, htop, resolveTail, hdj, hsc]
    | some w =>
      have hwd := hw w htop
      simp [resolveName, hsub, htop, hwd, resolveTail, hdj, hsc]
  · intro hsub hw v d hv _hd
    cases htop : lookupA data name with
    | none => simp [resolveName, hsub, htop, resolveTail, hv]
    | some w =>
      have hwd := hw w htop
      simp [resolveName, hsub, htop, hwd, resolveTail, hv]

/-- Witness for C1: `SITE_TITLE` is declared with default "My Site" but the
host configuration exposes it; resolution returns the host value. -/
theorem C1_witness :
    resolveName Option.none (Scope.root demoSchema)
      [("SITE_TITLE", .str "Host value")] [] "SITE_TITLE" =
      .ok (.value (.str "Host value")) :=
  (C1_layering_order Option.none (Scope.root demoSchema)
      [("SITE_TITLE", .str "Host value")] [] "SITE_TITLE").2.2.2.2.2
    rfl (fun _ hw => Option.noConfusion hw) (.str "Host value")
    ⟨"SITE_TITLE", .str "My Site", .ident, .ident⟩ rfl rfl

/-- C7: `Settings.revert` is idempotent — a second call with the same
optional container argument returns exactly the record produced by the first
call; one pass replaces each stored override that has a matching Setting
Definition with that definition's default, recurses one level into a
container's stored sub-mapping, and silently skips stored keys with no
matching definition. -/
theorem C7_revert_idempotent :
    (∀ (s : Schema) (a : Option String) (r r' : SettingsRec),
        Settings.revert s a r = some r' → Settings.revert s a r' = some r') ∧
    (∀ (s : Schema) (e : String × PyValue) (d : SettingDef),
        s.getattr e.1 = some (.setting d) →
        Settings.revertTopEntry s e = some (e.1, d.default)) ∧
    (∀ (s : Schema) (e : String × PyValue),
        s.getattr e.1 = Option.none → Settings.revertTopEntry s e = some e) ∧
    (∀ (s : Schema) (name : String) (c : ContainerDef) (m : Data),
        s.getattr name = some (.container c) →
        Settings.revertTopEntry s (name, .dict m) =
          some (name, .dict (Settings.revertSub c m))) ∧
    (∀ (c : ContainerDef) (n : String) (v : PyValue) (m : Data)
        (d : SettingDef), c.getattr n = some d →
        Settings.revertSub c ((n, v) :: m) =
          (n, d.default) :: Settings.revertSub c m) ∧
    (∀ (c : ContainerDef) (n : String) (v : PyValue) (m : Data),
        c.getattr n = Option.none →
        Settings.revertSub c ((n, v) :: m) = (n, v) :: Settings.revertSub c m) := by
  refine ⟨?_, ?_, ?_, ?_, ?_, ?_⟩
  · intro s a r r' h
    cases a with
    | none =>
      simp only [Settings.revert] at h ⊢
      cases hm : Settings.mapOption (Settings.revertTopEntry s) r.data with
      | none => rw [hm] at h; cases h
      | some d' =>
        rw [hm] at h
        simp only [Option.map_some'] at h
        cases h
        rw [mapOption_idem (Settings.revertTopEntry s)
          (revertTopEntry_idem s) r.data d' hm]
        rfl
    | some a =>
      cases hg : s.getattr a with
      | none => simp only [Settings.revert, hg] at h; cases h
      | some item =>
        cases item with
        | container c =>
          cases hl : lookupA r.data a with
          | none =>
            simp only [Settings.revert, hg, hl] at h
            cases h
            simp [Settings.revert, hg, hl]
          | some v =>
            cases v with
            | dict mm =>
              simp only [Settings.revert, hg, hl] at h
              cases h
              simp only [Settings.revert, hg, lookupA_insertA_self,
                revertSub_idem]
              rw [insertA_of_lookup_self _ _ _
                (lookupA_insertA_self r.data a _)]
            | none => simp only [Settings.revert, hg, hl] at h; cases h
            | bool b => simp only [Settings.revert, hg, hl] at h; cases h
            | int k => simp only [Settings.revert, hg, hl] at h; cases h
            | str t => simp only [Settings.revert, hg, hl] at h; cases h
        | setting d =>
          cases hl : lookupA r.data a with
          | none =>
            simp only [Settings.revert, hg, hl] at h
            cases h
            simp [Settings.revert, hg, hl]
          | some v =>
            cases v with
            | dict mm =>
              cases mm with
              | nil =>
                simp only [Settings.revert, hg, hl] at h
                cases h
                simp [Settings.revert, hg, hl]
              | cons e es =>
                simp only [Settings.revert, hg, hl] at h; cases h
            | none => simp only [Settings.revert, hg, hl] at h; cases h
            | bool b => simp only [Settings.revert, hg, hl] at h; cases h
            | int k => simp only [Settings.revert, hg, hl] at h; cases h
            | str t => simp only [Settings.revert, hg, hl] at h; cases h
  · intro s e d h
    simp [Settings.revertTopEntry, h]
  · intro s e h
    simp [Settings.revertTopEntry, h]
  · intro s name c m h
    simp [Settings.revertTopEntry, h]
  · intro c n v m d h
    simp [Settings.revertSub, h]
  · intro c n v m h
    simp [Settings.revertSub, h]

/-- Witness for C7: reverting the spec's example record a second time leaves
it at `data = {"blog": {"POSTS_PER_PAGE": 10}}`. -/
theorem C7_witness :
    Settings.revert demoSchema Option.none
        ⟨some 1, [("blog", .dict [("POSTS_PER_PAGE", .int 10)])]⟩ =
      some ⟨some 1, [("blog", .dict [("POSTS_PER_PAGE", .int 10)])]⟩ :=
  C7_revert_idempotent.1 demoSchema Option.none
    ⟨some 1, [("blog", .dict [("POSTS_PER_PAGE", .int 20)])]⟩
    ⟨some 1, [("blog", .dict [("POSTS_PER_PAGE", .int 10)])]⟩ rfl

/-- C8 (amended): on a micro-cache miss, the resolved value is stored in the
per-instance micro-cache before being returned (and is then retrievable);
on a hit whose cached value is anything other than `None`, the cached value
is returned with the proxy and state untouched.  (A cached `None` is
indistinguishable from a miss and re-resolves.) -/
theorem C8_micro_cache (s : Schema) (p : Proxy) (st : GState) (name : String)
    (now : Nat) (hus : startsWithUnderscore name = false) :
    (∀ (v : Resolved) (st' : GState),
        microGet p.mc name now = Option.none →
        getSettingValue s p.scope p.pfx st name = .ok (v, st') →
        lazyGetattr s p st name now =
          .ok (v, { p with mc := microPut p.mc name v now }, st') ∧
        microGet (microPut p.mc name v now) name now = some v) ∧
    (∀ rv : Resolved, microGet p.mc name now = some rv →
        rv ≠ .value .none → lazyGetattr s p st name now = .ok (rv, p, st)) := by
  constructor
  · intro v st' hmiss hres
    constructor
    · simp [lazyGetattr, hus, hmiss, resolveStore, hres]
    · exact microGet_microPut p.mc name v now
  · intro rv hhit hne
    cases rv with
    | child cn c => simp [lazyGetattr, hus, hhit]
    | value pv =>
      cases pv with
      | none => exact absurd rfl hne
      | bool b => simp [lazyGetattr, hus, hhit]
      | int k => simp [lazyGetattr, hus, hhit]
      | str t => simp [lazyGetattr, hus, hhit]
      | dict m => simp [lazyGetattr, hus, hhit]

/-- Counterexample to C8 as stated: the micro-cache holds a fresh, unexpired
entry for `X` whose cached value is `None`, yet the read does not return that
cached value — it re-resolves and returns the current Django value 7. -/
theorem C8_counterexample :
    microGet mcNoneX "X" 5 = some (.value .none) ∧
    lazyGetattr ⟨[]⟩ pNoneX stDjangoX "X" 5 =
      .ok (.value (.int 7),
           ⟨.root ⟨[]⟩, Option.none, [("X", .value (.int 7), 5)]⟩,
           stDjangoX) ∧
    Resolved.value (.int 7) ≠ Resolved.value .none := by
  refine ⟨rfl, rfl, ?_⟩
  intro h
  injection h with h'
  cases h'

/-- Witness for C8: a cached non-`None` value is served from the micro-cache
untouched. -/
theorem C8_witness :
    lazyGetattr ⟨[]⟩ ⟨.root ⟨[]⟩, Option.none, [("Y", .value (.int 3), 0)]⟩
        stDjangoX "Y" 5 =
      .ok (.value (.int 3),
           ⟨.root ⟨[]⟩, Option.none, [("Y", .value (.int 3), 0)]⟩,
           stDjangoX) :=
  (C8_micro_cache ⟨[]⟩ ⟨.root ⟨[]⟩, Option.none, [("Y", .value (.int 3), 0)]⟩
      stDjangoX "Y" 5 rfl).2 (.value (.int 3)) rfl
    (by intro h; injection h with h'; cases h')

/-- C4 (amended): for a name absent from the Django settings, the schema and
the persisted data, only READING through the proxy fails — with the
attribute-not-found error naming that exact identifier; WRITING silently
stores the value under the name in the record's data and persists, and
DELETING silently persists the record unchanged. -/
theorem C4_unknown_name (s : Schema) (dj rdata : Data) (m n : Nat)
    (name : String) (v : PyValue)
    (hus : startsWithUnderscore name = false)
    (hdj : containsA dj name = false)
    (hdata : lookupA rdata name = Option.none)
    (hschema : s.getattr name = Option.none)
    (hname : Settings.is_setting_name name = true)
    (hcleanW : cleanData s (insertA rdata name v) = .ok (insertA rdata name v))
    (hcleanD : cleanData s rdata = .ok rdata) :
    lazyGetattr s (rootProxy s)
        ⟨dj, [⟨some (m + 1), rdata⟩], some ⟨some (m + 1), rdata⟩, n⟩ name 0 =
      .error (.settingsHasNot name) ∧
    lazySetattr s Option.none
        ⟨dj, [⟨some (m + 1), rdata⟩], some ⟨some (m + 1), rdata⟩, n⟩ name v =
      .ok ⟨dj, [⟨some (m + 1), insertA rdata name v⟩], Option.none, n⟩ ∧
    lazyDelattr s
        ⟨dj, [⟨some (m + 1), rdata⟩], some ⟨some (m + 1), rdata⟩, n⟩ name =
      .ok ⟨dj, [⟨some (m + 1), rdata⟩], Option.none, n⟩ := by
  have hlk : lookupA dj name = Option.none :=
    lookupA_none_of_containsA_false dj name hdj
  refine ⟨?_, ?_, ?_⟩
  · simp [lazyGetattr, rootProxy, hus, microGet, resolveStore, getSettingValue,
      getCustomM, resolveName, subLookup, hdata, resolveTail, hlk, hschema,
      Scope.getattr]
  · have hset : Settings.setattrS ⟨some (m + 1), rdata⟩ name v =
        ⟨some (m + 1), insertA rdata name v⟩ := by
      simp [Settings.setattrS, hname]
    have hvu : Settings.validate_unique [⟨some (m + 1), rdata⟩]
        ⟨some (m + 1), insertA rdata name v⟩ = false := by
      apply validate_unique_all_self _ _ m rfl
      intro r hr
      simp only [List.mem_singleton] at hr
      subst hr
      rfl
    simp [lazySetattr, hus, hdj, getCustomM, hset, saveRec, hcleanW, hvu,
      storeRow, clear_settings_cache, cacheDelete]
  · have hdel : Settings.delattrS ⟨some (m + 1), rdata⟩ name =
        ⟨some (m + 1), rdata⟩ := by
      simp [Settings.delattrS, hname, eraseA_of_lookup_none rdata name hdata]
    have hvu : Settings.validate_unique [⟨some (m + 1), rdata⟩]
        ⟨some (m + 1), rdata⟩ = false := by
      apply validate_unique_all_self _ _ m rfl
      intro r hr
      simp only [List.mem_singleton] at hr
      subst hr
      rfl
    simp [lazyDelattr, hus, hdj, getCustomM, hdel, saveRec, hcleanD, hvu,
      storeRow, clear_settings_cache, cacheDelete]

/-- Counterexample to C4 as stated: writing the completely unknown name
`NOPE` does not fail — it stores the value and persists the record. -/
theorem C4_counterexample :
    lazySetattr ⟨[]⟩ Option.none stOneCached "NOPE" (.int 7) =
      .ok ⟨[], [⟨some 1, [("NOPE", PyValue.int 7)]⟩], Option.none, 2⟩ := rfl

/-- Witness for C4 (amended): reading the unknown name `NOPE` raises the
attribute error naming it, while writing stores it and deleting is a
persisted no-op. -/
theorem C4_witness :
    lazyGetattr ⟨[]⟩ (rootProxy ⟨[]⟩)
        ⟨[], [⟨some 1, []⟩], some ⟨some 1, []⟩, 2⟩ "NOPE" 0 =
      .error (.settingsHasNot "NOPE") ∧
    lazySetattr ⟨[]⟩ Option.none
        ⟨[], [⟨some 1, []⟩], some ⟨some 1, []⟩, 2⟩ "NOPE" (.int 7) =
      .ok ⟨[], [⟨some 1, insertA [] "NOPE" (.int 7)⟩], Option.none, 2⟩ ∧
    lazyDelattr ⟨[]⟩ ⟨[], [⟨some 1, []⟩], some ⟨some 1, []⟩, 2⟩ "NOPE" =
      .ok ⟨[], [⟨some 1, []⟩], Option.none, 2⟩ :=
  C4_unknown_name ⟨[]⟩ [] [] 0 2 "NOPE" (.int 7) rfl rfl rfl rfl rfl rfl rfl

/-- C5 (amended): deleting a setting name through a scoped proxy (the name
not exposed by the Django settings) removes the name from the TOP level of
the record's `data` when present there — `Settings.__delattr__` never
consults the proxy's container prefix — leaves every other top-level key
(container sub-mappings included) untouched, and persists the record,
invalidating the resolution cache.  (`lazyDelattr` embeds
`LazySettings.__delattr__`, which is prefix-independent, so it is the delete
of scoped and root proxies alike.) -/
theorem C5_scoped_delete (s : Schema) (dj rdata : Data) (m n : Nat)
    (name : String)
    (hus : startsWithUnderscore name = false)
    (hdj : containsA dj name = false)
    (hname : Settings.is_setting_name name = true)
    (hclean : cleanData s (eraseA rdata name) = .ok (eraseA rdata name)) :
    lazyDelattr s
        ⟨dj, [⟨some (m + 1), rdata⟩], some ⟨some (m + 1), rdata⟩, n⟩ name =
      .ok ⟨dj, [⟨some (m + 1), eraseA rdata name⟩], Option.none, n⟩ ∧
    (∀ k, k ≠ name → lookupA (eraseA rdata name) k = lookupA rdata k) := by
  constructor
  · have hdel : Settings.delattrS ⟨some (m + 1), rdata⟩ name =
        ⟨some (m + 1), eraseA rdata name⟩ := by
      simp [Settings.delattrS, hname]
    have hvu : Settings.validate_unique [⟨some (m + 1), rdata⟩]
        ⟨some (m + 1), eraseA rdata name⟩ = false := by
      apply validate_unique_all_self _ _ m rfl
      intro r hr
      simp only [List.mem_singleton] at hr
      subst hr
      rfl
    simp [lazyDelattr, hus, hdj, getCustomM, hdel, saveRec, hclean, hvu,
      storeRow, clear_settings_cache, cacheDelete]
  · intro k hk
    exact lookupA_eraseA_ne rdata name k hk

/-- Counterexample to C5 as stated: the record stores `X` only inside the
`app1` container sub-mapping; deleting `X` through the `app1`-scoped proxy
leaves the sub-mapping untouched (the key is still there after the persisted
save), instead of removing it. -/
theorem C5_counterexample :
    lazyDelattr ⟨[]⟩ stApp1X "X" =
      .ok ⟨[], [⟨some 1, [("app1", PyValue.dict [("X", PyValue.int 5)])]⟩],
           Option.none, 2⟩ ∧
    subLookup [("app1", PyValue.dict [("X", PyValue.int 5)])] (some "app1") "X" =
      some (PyValue.int 5) :=
  ⟨rfl, rfl⟩

/-- Witness for C5 (amended): deleting `X` through the scoped proxy erases
only the top level — the record comes back with its `app1` sub-mapping
intact and the cache invalidated. -/
theorem C5_witness :
    lazyDelattr ⟨[]⟩ stApp1X "X" =
      .ok ⟨[], [⟨some 1,
            eraseA [("app1", PyValue.dict [("X", PyValue.int 5)])] "X"⟩],
           Option.none, 2⟩ :=
  (C5_scoped_delete ⟨[]⟩ [] [("app1", PyValue.dict [("X", PyValue.int 5)])]
      0 2 "X" rfl rfl rfl rfl).1

/-- C6 (amended): a write that modifies the Settings Record — the root
database path or the scoped database path — deletes the process-wide
resolution-cache entry, and the next materialisation re-fetches the freshly
persisted row from the store; a write captured by the Django settings layer
modifies only that configuration and leaves the resolution-cache entry in
place (the cached record is unchanged by such a write). -/
theorem C6_cache_invalidation (s : Schema) (dj rdata : Data) (m n : Nat)
    (name pr : String) (v : PyValue)
    (hus : startsWithUnderscore name = false)
    (hdj : containsA dj name = false)
    (hname : Settings.is_setting_name name = true)
    (hcleanW : cleanData s (insertA rdata name v) = .ok (insertA rdata name v))
    (hpr : lookupA rdata pr = Option.none)
    (hcleanP : cleanData s (insertA rdata pr (.dict [(name, v)])) =
        .ok (insertA rdata pr (.dict [(name, v)]))) :
    lazySetattr s Option.none
        ⟨dj, [⟨some (m + 1), rdata⟩], some ⟨some (m + 1), rdata⟩, n⟩ name v =
      .ok ⟨dj, [⟨some (m + 1), insertA rdata name v⟩], Option.none, n⟩ ∧
    getCustomM s ⟨dj, [⟨some (m + 1), insertA rdata name v⟩], Option.none, n⟩ =
      .ok (loadRec s ⟨some (m + 1), insertA rdata name v⟩,
           ⟨dj, [⟨some (m + 1), insertA rdata name v⟩],
            some (loadRec s ⟨some (m + 1), insertA rdata name v⟩), n⟩) ∧
    lazySetattr s (some pr)
        ⟨dj, [⟨some (m + 1), rdata⟩], some ⟨some (m + 1), rdata⟩, n⟩ name v =
      .ok ⟨dj, [⟨some (m + 1), insertA rdata pr (.dict [(name, v)])⟩],
           Option.none, n⟩ ∧
    (∀ (st : GState) (pfx : Option String), containsA st.django name = true →
        lazySetattr s pfx st name v =
          .ok { st with django := insertA st.django name v }) := by
  refine ⟨?_, ?_, ?_, ?_⟩
  · have hset : Settings.setattrS ⟨some (m + 1), rdata⟩ name v =
        ⟨some (m + 1), insertA rdata name v⟩ := by
      simp [Settings.setattrS, hname]
    have hvu : Settings.validate_unique [⟨some (m + 1), rdata⟩]
        ⟨some (m + 1), insertA rdata name v⟩ = false := by
      apply validate_unique_all_self _ _ m rfl
      intro r hr
      simp only [List.mem_singleton] at hr
      subst hr
      rfl
    simp [lazySetattr, hus, hdj, getCustomM, hset, saveRec, hcleanW, hvu,
      storeRow, clear_settings_cache, cacheDelete]
  · simp [getCustomM, getCustomSettingsM]
  · have hvu : Settings.validate_unique [⟨some (m + 1), rdata⟩]
        ⟨some (m + 1), insertA rdata pr (.dict [(name, v)])⟩ = false := by
      apply validate_unique_all_self _ _ m rfl
      intro r hr
      simp only [List.mem_singleton] at hr
      subst hr
      rfl
    simp [lazySetattr, hus, hdj, getCustomM, hpr, saveRec, hcleanP, hvu,
      storeRow, clear_settings_cache, cacheDelete]
  · intro st pfx hin
    simp [lazySetattr, hus, hin]

/-- Counterexample to C6 as stated: `X` is exposed by the Django settings, so
the write goes to that layer — and the resolution-cache entry is NOT deleted
(it still holds the pre-write record afterwards). -/
theorem C6_counterexample :
    lazySetattr ⟨[]⟩ Option.none
        ⟨[("X", PyValue.int 0)], [⟨some 1, []⟩], some ⟨some 1, []⟩, 2⟩
        "X" (.int 5) =
      .ok ⟨[("X", PyValue.int 5)], [⟨some 1, []⟩], some ⟨some 1, []⟩, 2⟩ ∧
    (some (⟨some 1, []⟩ : SettingsRec) ≠ (Option.none : Option SettingsRec)) :=
  ⟨rfl, fun h => Option.noConfusion h⟩

/-- Witness for C6 (amended): a root database-path write clears the
resolution cache. -/
theorem C6_witness :
    lazySetattr ⟨[]⟩ Option.none stOneCached "FRESH" (.int 9) =
      .ok ⟨[], [⟨some 1, insertA [] "FRESH" (.int 9)⟩], Option.none, 2⟩ :=
  (C6_cache_invalidation ⟨[]⟩ [] [] 0 2 "FRESH" "app" (.int 9)
      rfl rfl rfl rfl rfl rfl).1

/-- C2 (amended): writing `V` to a project-level name not exposed by the
Django settings and then reading it back on a fresh root proxy returns `V`,
PROVIDED `V` is not itself a dict and the schema's save-time cleaning and
load-time conversion leave the written data unchanged (in particular whenever
the name is not schema-declared); when the declared coercion alters the
value, the read returns the coerced value instead. -/
theorem C2_round_trip (s : Schema) (dj rdata : Data) (m n : Nat)
    (name : String) (V : PyValue)
    (hdj : containsA dj name = false)
    (hname : Settings.is_setting_name name = true)
    (hdict : V.isDict = false)
    (hclean : cleanData s (insertA rdata name V) = .ok (insertA rdata name V))
    (hload : settingsToPython s (insertA rdata name V) = insertA rdata name V) :
    roundTrip s ⟨dj, [⟨some (m + 1), rdata⟩], some ⟨some (m + 1), rdata⟩, n⟩
      name V = some (.value V) := by
  have hus : startsWithUnderscore name = false := by
    have h := hname
    simp only [Settings.is_setting_name, Bool.and_eq_true, Bool.not_eq_true']
      at h
    exact h.1
  have hset : Settings.setattrS ⟨some (m + 1), rdata⟩ name V =
      ⟨some (m + 1), insertA rdata name V⟩ := by
    simp [Settings.setattrS, hname]
  have hvu : Settings.validate_unique [⟨some (m + 1), rdata⟩]
      ⟨some (m + 1), insertA rdata name V⟩ = false := by
    apply validate_unique_all_self _ _ m rfl
    intro r hr
    simp only [List.mem_singleton] at hr
    subst hr
    rfl
  have hw : lazySetattr s Option.none
      ⟨dj, [⟨some (m + 1), rdata⟩], some ⟨some (m + 1), rdata⟩, n⟩ name V =
      .ok ⟨dj, [⟨some (m + 1), insertA rdata name V⟩], Option.none, n⟩ := by
    simp [lazySetattr, hus, hdj, getCustomM, hset, saveRec, hclean, hvu,
      storeRow, clear_settings_cache, cacheDelete]
  have hr : lazyGetattr s (rootProxy s)
      ⟨dj, [⟨some (m + 1), insertA rdata name V⟩], Option.none, n⟩ name 0 =
      .ok (.value V, ⟨.root s, Option.none, [(name, .value V, 0)]⟩,
           ⟨dj, [⟨some (m + 1), insertA rdata name V⟩],
            some ⟨some (m + 1), insertA rdata name V⟩, n⟩) := by
    simp [lazyGetattr, rootProxy, microGet, hus, resolveStore, getSettingValue,
      getCustomM, getCustomSettingsM, loadRec, hload, resolveName, subLookup,
      lookupA_insertA_self, hdict, microPut]
  simp [roundTrip, hw, hr]

/-- Counterexample to C2 as stated: `PRICE` is declared with an
integer-coercing validator; writing the string "5" and reading it back
returns the integer 5, not the written value. -/
theorem C2_counterexample :
    roundTrip priceSchema stOneEmpty "PRICE" (.str "5") =
      some (.value (.int 5)) ∧
    PyValue.int 5 ≠ PyValue.str "5" :=
  ⟨rfl, fun h => PyValue.noConfusion h⟩

/-- Witness for C2 (amended): for a schema-undeclared name the round trip
returns exactly the written value. -/
theorem C2_witness :
    roundTrip ⟨[]⟩ stOneCached "FOO" (.int 5) = some (.value (.int 5)) :=
  C2_round_trip ⟨[]⟩ [] [] 0 2 "FOO" (.int 5) rfl rfl rfl rfl rfl
